import Mathlib

/-
Verification of the core of Stock_ChartBot_v0.2.py (TorqueDog/Stock_ChartBot).

The embedding below translates the program's core functions into Lean:
  * `find_support_resistance` (source lines 122-138), including the semantics
    of scipy's `argrelextrema` with its default boundary mode, where an index
    shifted past either end of the array is clamped to the end value;
  * `resample_data` (source lines 140-162), with the pandas
    `resample(rule).agg({...}).dropna()` pipeline modelled as fixed-width
    epoch-aligned bucketing that emits exactly the non-empty buckets;
  * `get_extended_period` (source lines 74-85), with pytz localization
    modelled by an offset function from local datetimes to UTC offsets;
  * the extended-window filter of `get_extended_data` (source line 113);
  * `generate_chart_for_symbol` (source lines 212-243) and the per-symbol
    loop of `generate_charts` (source lines 245-260).

Prices are modelled as integers (the program uses floats but no claim
depends on rounding), timestamps as natural-number seconds.
-/

namespace SCB

/-- Claim model: one OHLCV bar, corresponding to a row of the pandas frame. -/
structure Bar where
  ts : Nat
  Open : Int
  High : Int
  Low : Int
  Close : Int
  Volume : Nat
deriving DecidableEq

/-- numpy comparator passed to argrelextrema for supports (source line 134). -/
def np_less (a b : Int) : Bool := decide (a < b)

/-- numpy comparator passed to argrelextrema for resistances (source line 135). -/
def np_greater (a b : Int) : Bool := decide (b < a)

/-- scipy `_boolrelextrema` at one index, default mode where out-of-range
neighbour indices are clamped into the array: index `i` qualifies iff for
every shift `k+1` in `1..order`, the comparator accepts `cp[i]` against both
`cp[min (i+(k+1)) (len-1)]` and `cp[i - (k+1)]` (natural subtraction clamps
the left neighbour at 0, exactly like numpy `take` with clip mode). -/
def boolrelextrema (comparator : Int → Int → Bool) (cp : List Int) (order i : Nat) : Bool :=
  (List.range order).all (fun k =>
    comparator (cp.getD i 0) (cp.getD (min (i + (k + 1)) (cp.length - 1)) 0) &&
    comparator (cp.getD i 0) (cp.getD (i - (k + 1)) 0))

/-- scipy `argrelextrema`: the indices of the array accepted by
`boolrelextrema`, in ascending order. -/
def argrelextrema (cp : List Int) (comparator : Int → Int → Bool) (order : Nat) : List Nat :=
  (List.range cp.length).filter (fun i => boolrelextrema comparator cp order i)

/-- Source lines 122-138: `find_support_resistance(data, order)`.
Empty frame gives `([], [])`; fewer than `order*2+1` rows gives the fallback
`([close[0]], [close[0]])`; otherwise the closes at the indices reported by
`argrelextrema` with `np.less` (supports) and `np.greater` (resistances). -/
def find_support_resistance (data : List Bar) (order : Nat) : List Int × List Int :=
  match data with
  | [] => ([], [])
  | b :: rest =>
    let close_prices := (b :: rest).map Bar.Close
    if close_prices.length < order * 2 + 1 then
      ([b.Close], [b.Close])
    else
      let supports_idx := argrelextrema close_prices np_less order
      let resistances_idx := argrelextrema close_prices np_greater order
      (supports_idx.map (fun i => close_prices.getD i 0),
       resistances_idx.map (fun i => close_prices.getD i 0))

/-- Claim C2: for every non-empty series shorter than `2*radius + 1` bars,
`find_support_resistance` returns the pair `([close[0]], [close[0]])`
(source lines 130-132). -/
theorem C2_insufficient_data_fallback (b : Bar) (rest : List Bar) (r : Nat)
    (hr : 0 < r) (hlen : (b :: rest).length < 2 * r + 1) :
    find_support_resistance (b :: rest) r = ([b.Close], [b.Close]) := by
  have hlen2 : ((b :: rest).map Bar.Close).length < r * 2 + 1 := by
    rw [List.length_map]
    omega
  simp only [find_support_resistance, if_pos hlen2]

/-- Claim C2 witness: a series of length 2 with radius 2 yields
`supports == resistances == [close[0]]`. -/
theorem C2_witness :
    0 < 2 ∧ ([⟨0, 10, 12, 9, 11, 100⟩, ⟨1800, 11, 13, 10, 12, 200⟩] : List Bar).length < 2 * 2 + 1 ∧
    find_support_resistance [⟨0, 10, 12, 9, 11, 100⟩, ⟨1800, 11, 13, 10, 12, 200⟩] 2
      = ([11], [11]) :=
  ⟨by decide, by decide,
    C2_insufficient_data_fallback ⟨0, 10, 12, 9, 11, 100⟩ [⟨1800, 11, 13, 10, 12, 200⟩] 2
      (by decide) (by decide)⟩

/-- Claim C10: every price returned by `find_support_resistance`, in either
list, is the close of some bar of the input series; an empty series yields
`([], [])` (source lines 127-137). -/
theorem C10_levels_are_closes (data : List Bar) (r : Nat) (hr : 0 < r) :
    (∀ p ∈ (find_support_resistance data r).1, ∃ b ∈ data, p = b.Close) ∧
    (∀ p ∈ (find_support_resistance data r).2, ∃ b ∈ data, p = b.Close) ∧
    (data = [] → find_support_resistance data r = ([], [])) := by
  match data with
  | [] => exact ⟨by intro p hp; simp [find_support_resistance] at hp,
                 by intro p hp; simp [find_support_resistance] at hp,
                 fun _ => rfl⟩
  | b :: rest =>
    refine ⟨?_, ?_, by intro h; exact absurd h (List.cons_ne_nil b rest)⟩ <;>
    · intro p hp
      simp only [find_support_resistance] at hp
      by_cases hlen : ((b :: rest).map Bar.Close).length < r * 2 + 1
      · rw [if_pos hlen] at hp
        simp only [List.mem_singleton] at hp
        exact ⟨b, List.mem_cons_self b rest, hp⟩
      · rw [if_neg hlen] at hp
        simp only [List.mem_map, argrelextrema, List.mem_filter, List.mem_range] at hp
        obtain ⟨i, ⟨hi, _⟩, hpi⟩ := hp
        rw [List.length_map] at hi
        have hget : ((b :: rest).map Bar.Close).getD i 0 = ((b :: rest).get ⟨i, hi⟩).Close := by
          rw [List.getD_eq_getElem _ _ (by simpa using hi)]
          rw [List.getElem_map]
          simp [List.get_eq_getElem]
        refine ⟨(b :: rest).get ⟨i, hi⟩, List.get_mem _ _ _, ?_⟩
        rw [← hpi, hget]

/-- Claim C10 witness: a concrete instantiation on a one-bar series. -/
theorem C10_witness :
    0 < 3 ∧
    ((∀ p ∈ (find_support_resistance [⟨0, 10, 12, 9, 11, 100⟩] 3).1,
        ∃ b ∈ ([⟨0, 10, 12, 9, 11, 100⟩] : List Bar), p = b.Close) ∧
     (∀ p ∈ (find_support_resistance [⟨0, 10, 12, 9, 11, 100⟩] 3).2,
        ∃ b ∈ ([⟨0, 10, 12, 9, 11, 100⟩] : List Bar), p = b.Close) ∧
     (([⟨0, 10, 12, 9, 11, 100⟩] : List Bar) = [] →
        find_support_resistance [⟨0, 10, 12, 9, 11, 100⟩] 3 = ([], []))) :=
  ⟨by decide, C10_levels_are_closes [⟨0, 10, 12, 9, 11, 100⟩] 3 (by decide)⟩

/-- Amended-claim predicate for C1: index `i` is an extremum iff it is not
the first or last index and the comparator accepts `cp[i]` against every
other entry of the window `[i-r, i+r]` clamped to the valid index range. -/
def amended_extremum (comparator : Int → Int → Bool) (cp : List Int) (r i : Nat) : Bool :=
  decide (0 < i) && decide (i + 1 < cp.length) &&
  (List.range cp.length).all (fun j =>
    if i - r ≤ j ∧ j ≤ i + r ∧ j ≠ i then comparator (cp.getD i 0) (cp.getD j 0) else true)

/-- Original-claim predicate for C1, following the spec text: `i` is an
extremum iff `radius ≤ i < len − radius` and the comparator accepts `cp[i]`
against every other entry of the window `[i−radius, i+radius]`. -/
def claim_extremum (comparator : Int → Int → Bool) (cp : List Int) (r i : Nat) : Bool :=
  decide (r ≤ i) && decide (i + r < cp.length) &&
  (List.range cp.length).all (fun j =>
    if i - r ≤ j ∧ j ≤ i + r ∧ j ≠ i then comparator (cp.getD i 0) (cp.getD j 0) else true)

theorem boolrelextrema_iff (comparator : Int → Int → Bool) (cp : List Int) (r i : Nat) :
    boolrelextrema comparator cp r i = true ↔
      ∀ k < r, comparator (cp.getD i 0) (cp.getD (min (i + (k + 1)) (cp.length - 1)) 0) = true ∧
               comparator (cp.getD i 0) (cp.getD (i - (k + 1)) 0) = true := by
  simp [boolrelextrema]

theorem amended_extremum_iff (comparator : Int → Int → Bool) (cp : List Int) (r i : Nat) :
    amended_extremum comparator cp r i = true ↔
      0 < i ∧ i + 1 < cp.length ∧
      ∀ j < cp.length, i - r ≤ j → j ≤ i + r → j ≠ i →
        comparator (cp.getD i 0) (cp.getD j 0) = true := by
  simp only [amended_extremum, Bool.and_eq_true, decide_eq_true_eq, List.all_eq_true,
    List.mem_range]
  constructor
  · rintro ⟨⟨h0, h1⟩, hall⟩
    refine ⟨h0, h1, ?_⟩
    intro j hj hj1 hj2 hj3
    have hx := hall j hj
    rw [if_pos ⟨hj1, hj2, hj3⟩] at hx
    exact hx
  · rintro ⟨h0, h1, hall⟩
    refine ⟨⟨h0, h1⟩, ?_⟩
    intro j hj
    split
    next h => exact hall j hj h.1 h.2.1 h.2.2
    next => rfl

/-- The boundary-clipped neighbourhood rule of scipy agrees with the
amended clamped-window rule, for any irreflexive comparator, positive
radius, and in-range index. -/
theorem boolrelextrema_eq_amended (comparator : Int → Int → Bool)
    (hirr : ∀ a, comparator a a = false) (cp : List Int) (r i : Nat)
    (hr : 0 < r) (hi : i < cp.length) :
    boolrelextrema comparator cp r i = amended_extremum comparator cp r i := by
  rw [Bool.eq_iff_iff, boolrelextrema_iff, amended_extremum_iff]
  constructor
  · intro h
    have h0 : 0 < i := by
      by_contra h0
      have hi0 : i = 0 := by omega
      have hx := (h 0 hr).2
      rw [hi0] at hx
      simp only [Nat.zero_sub] at hx
      rw [hirr] at hx
      exact Bool.false_ne_true hx
    have h1 : i + 1 < cp.length := by
      by_contra h1
      have hx := (h 0 hr).1
      have hmin : min (i + (0 + 1)) (cp.length - 1) = i := by omega
      rw [hmin, hirr] at hx
      exact Bool.false_ne_true hx
    refine ⟨h0, h1, ?_⟩
    intro j hj hjl hjr hjne
    rcases Nat.lt_or_ge j i with hlt | hge
    · have hk : i - j - 1 < r := by omega
      have hx := (h (i - j - 1) hk).2
      have hidx : i - (i - j - 1 + 1) = j := by omega
      rw [hidx] at hx
      exact hx
    · have hgt : i < j := by omega
      have hk : j - i - 1 < r := by omega
      have hx := (h (j - i - 1) hk).1
      have hidx : min (i + (j - i - 1 + 1)) (cp.length - 1) = j := by omega
      rw [hidx] at hx
      exact hx
  · rintro ⟨h0, h1, hw⟩ k hk
    constructor
    · exact hw (min (i + (k + 1)) (cp.length - 1)) (by omega) (by omega) (by omega) (by omega)
    · exact hw (i - (k + 1)) (by omega) (by omega) (by omega) (by omega)

/-- Claim C1 (amended): in the general case, `find_support_resistance`
returns the closes at exactly the indices accepted by the clamped-window
strict rule of `amended_extremum`, with `np_less` for supports and
`np_greater` for resistances, in index order. -/
theorem C1_find_support_resistance_amended (data : List Bar) (r : Nat)
    (hr : 0 < r) (hlen : 2 * r + 1 ≤ data.length) :
    find_support_resistance data r =
      (((List.range (data.map Bar.Close).length).filter
          (fun i => amended_extremum np_less (data.map Bar.Close) r i)).map
            (fun i => (data.map Bar.Close).getD i 0),
       ((List.range (data.map Bar.Close).length).filter
          (fun i => amended_extremum np_greater (data.map Bar.Close) r i)).map
            (fun i => (data.map Bar.Close).getD i 0)) := by
  match data with
  | [] => simp at hlen
  | b :: rest =>
    have hlen2 : ¬ ((b :: rest).map Bar.Close).length < r * 2 + 1 := by
      rw [List.length_map]
      simp only [List.length_cons] at hlen ⊢
      omega
    have hless : ∀ a : Int, np_less a a = false := fun a => by simp [np_less]
    have hgreater : ∀ a : Int, np_greater a a = false := fun a => by simp [np_greater]
    simp only [find_support_resistance, if_neg hlen2, argrelextrema]
    rw [Prod.mk.injEq]
    constructor
    · refine congrArg _ (List.filter_congr ?_)
      intro i hi
      rw [List.mem_range] at hi
      exact boolrelextrema_eq_amended np_less hless _ r i hr hi
    · refine congrArg _ (List.filter_congr ?_)
      intro i hi
      rw [List.mem_range] at hi
      exact boolrelextrema_eq_amended np_greater hgreater _ r i hr hi

/-- Close of the last bar of the non-empty list `b :: rest` (the pandas
aggregation rule `Close: last`, source line 158). -/
def lastClose : Bar → List Bar → Int
  | b, [] => b.Close
  | _, c :: rest => lastClose c rest

/-- One output row of the pandas `resample(rule).agg({...})` pipeline
(source lines 154-160) for the bucket with key `k` of width `w`: open of
the first row, running max of highs, running min of lows, close of the
last row, sum of volumes; `none` for an empty bucket (such rows carry NaN
aggregates and are removed by `.dropna()`). -/
def aggBucketK (w k : Nat) : List Bar → Option Bar
  | [] => none
  | b :: rest =>
    some { ts := k * w
           Open := b.Open
           High := (rest.map Bar.High).foldl max b.High
           Low := (rest.map Bar.Low).foldl min b.Low
           Close := lastClose b rest
           Volume := b.Volume + (rest.map Bar.Volume).sum }

/-- The distinct bucket keys (timestamp divided by the bucket width) of the
series, merging runs of consecutive equal keys. -/
def keysOf (w : Nat) : List Bar → List Nat
  | [] => []
  | b :: rest =>
    let ks := keysOf w rest
    if ks.head? = some (b.ts / w) then ks else (b.ts / w) :: ks

/-- The pandas `resample(rule).agg({...}).dropna()` pipeline: one aggregated
row per non-empty bucket, where a row with timestamp `t` belongs to the
epoch-aligned bucket `t / w`. -/
def aggregate (w : Nat) (data : List Bar) : List Bar :=
  (keysOf w data).filterMap
    (fun k => aggBucketK w k (data.filter (fun b => b.ts / w == k)))

/-- Source lines 140-162: `resample_data(data, timeframe)`. `'1d'` buckets
by day, `'4h'` by four hours, `'30m'` returns the data unchanged, anything
else raises `ValueError(f"Unsupported timeframe: {timeframe}")`. -/
def resample_data (data : List Bar) (timeframe : String) : Except String (List Bar) :=
  if timeframe = "1d" then Except.ok (aggregate 86400 data)
  else if timeframe = "4h" then Except.ok (aggregate 14400 data)
  else if timeframe = "30m" then Except.ok data
  else Except.error ("Unsupported timeframe: " ++ timeframe)

/-- Bucket width in seconds of the two non-identity recognized timeframes. -/
def bucketWidth (tf : String) : Nat := if tf = "1d" then 86400 else 14400

/-- Claim C8: resampling at the native `'30m'` resolution is the identity;
the series is returned unchanged with no bucketing performed
(source lines 149-150). -/
theorem C8_identity_resample (data : List Bar) :
    resample_data data "30m" = Except.ok data := rfl

theorem mem_of_head_some {l : List Nat} {a : Nat} (h : l.head? = some a) : a ∈ l := by
  cases l with
  | nil => simp at h
  | cons x xs =>
    simp only [List.head?_cons, Option.some.injEq] at h
    rw [← h]
    exact List.mem_cons_self x xs

theorem mem_of_getLast_some {l : List Bar} {a : Bar} (h : l.getLast? = some a) : a ∈ l := by
  induction l with
  | nil => simp at h
  | cons b rest ih =>
    cases rest with
    | nil =>
      simp only [List.getLast?_singleton, Option.some.injEq] at h
      rw [← h]
      exact List.mem_cons_self b []
    | cons c r =>
      rw [List.getLast?_cons_cons] at h
      exact List.mem_cons_of_mem b (ih h)

theorem keysOf_length_le (w : Nat) (data : List Bar) :
    (keysOf w data).length ≤ data.length := by
  induction data with
  | nil => simp [keysOf]
  | cons b rest ih =>
    simp only [keysOf, List.length_cons]
    split
    · omega
    · simp only [List.length_cons]
      omega

theorem mem_keysOf (w : Nat) (data : List Bar) (k : Nat) :
    k ∈ keysOf w data ↔ ∃ b ∈ data, b.ts / w = k := by
  induction data with
  | nil => simp [keysOf]
  | cons b rest ih =>
    simp only [keysOf]
    split
    next h =>
      rw [ih]
      constructor
      · rintro ⟨c, hc, hck⟩
        exact ⟨c, List.mem_cons_of_mem b hc, hck⟩
      · rintro ⟨c, hc, hck⟩
        rcases List.mem_cons.mp hc with hbc | hc2
        · subst hbc
          exact ih.mp (hck ▸ mem_of_head_some h)
        · exact ⟨c, hc2, hck⟩
    next h =>
      simp only [List.mem_cons]
      rw [ih]
      constructor
      · rintro (rfl | ⟨c, hc, hck⟩)
        · exact ⟨b, Or.inl rfl, rfl⟩
        · exact ⟨c, Or.inr hc, hck⟩
      · rintro ⟨c, hc, hck⟩
        rcases hc with hbc | hc2
        · subst hbc
          exact Or.inl hck.symm
        · exact Or.inr ⟨c, hc2, hck⟩

theorem keysOf_sorted (w : Nat) (data : List Bar)
    (hmono : data.Pairwise (fun a b => a.ts / w ≤ b.ts / w)) :
    (keysOf w data).Pairwise (· < ·) := by
  induction data with
  | nil => simp [keysOf]
  | cons b rest ih =>
    have hmr : rest.Pairwise (fun a c => a.ts / w ≤ c.ts / w) :=
      (List.pairwise_cons.mp hmono).2
    have hble : ∀ k ∈ keysOf w rest, b.ts / w ≤ k := by
      intro k hk
      obtain ⟨c, hc, hck⟩ := (mem_keysOf w rest k).mp hk
      have := (List.pairwise_cons.mp hmono).1 c hc
      omega
    have hks := ih hmr
    simp only [keysOf]
    split
    next h => exact hks
    next h =>
      refine List.pairwise_cons.mpr ⟨?_, hks⟩
      intro k hk
      have hle := hble k hk
      rcases Nat.lt_or_ge (b.ts / w) k with hlt | hge
      · exact hlt
      · exfalso
        have heq : b.ts / w = k := by omega
        cases hkl : keysOf w rest with
        | nil =>
          rw [hkl] at hk
          simp at hk
        | cons k0 ks2 =>
          rw [hkl] at hk hks h
          rcases List.mem_cons.mp hk with hkk0 | hk2
          · subst hkk0
            exact h (by rw [heq]; rfl)
          · have hk0 : k0 < k := (List.pairwise_cons.mp hks).1 k hk2
            have hble0 : b.ts / w ≤ k0 := hble k0 (by rw [hkl]; exact List.mem_cons_self _ _)
            omega

theorem length_aggregate_le (w : Nat) (data : List Bar) :
    (aggregate w data).length ≤ data.length :=
  le_trans (List.length_filterMap_le _ _) (keysOf_length_le w data)

theorem mem_aggregate (w : Nat) (data : List Bar) (bar : Bar) :
    bar ∈ aggregate w data ↔
      ∃ k ∈ keysOf w data,
        aggBucketK w k (data.filter (fun b => b.ts / w == k)) = some bar := by
  simp [aggregate, List.mem_filterMap]

theorem aggBucketK_ts (w k : Nat) (g : List Bar) (bar : Bar)
    (h : aggBucketK w k g = some bar) : bar.ts = k * w := by
  cases g with
  | nil => simp [aggBucketK] at h
  | cons b rest =>
    injection h with h2
    rw [← h2]

theorem aggBucketK_of_ne_nil (w k : Nat) (g : List Bar) (hg : g ≠ []) :
    ∃ bar, aggBucketK w k g = some bar := by
  cases g with
  | nil => exact absurd rfl hg
  | cons b rest => exact ⟨_, rfl⟩

theorem aggregate_sound (w : Nat) (data : List Bar) (bar : Bar)
    (h : bar ∈ aggregate w data) : ∃ b ∈ data, bar.ts = b.ts / w * w := by
  obtain ⟨k, hk, hbar⟩ := (mem_aggregate w data bar).mp h
  obtain ⟨b, hb, hbk⟩ := (mem_keysOf w data k).mp hk
  exact ⟨b, hb, by rw [aggBucketK_ts w k _ bar hbar, hbk]⟩

theorem aggregate_complete (w : Nat) (data : List Bar) (b : Bar) (hb : b ∈ data) :
    ∃ bar ∈ aggregate w data, bar.ts = b.ts / w * w := by
  have hk : b.ts / w ∈ keysOf w data := (mem_keysOf w data _).mpr ⟨b, hb, rfl⟩
  have hfil : b ∈ data.filter (fun c => c.ts / w == b.ts / w) :=
    List.mem_filter.mpr ⟨hb, by simp⟩
  obtain ⟨bar, hbar⟩ := aggBucketK_of_ne_nil w (b.ts / w) _ (List.ne_nil_of_mem hfil)
  refine ⟨bar, ?_, aggBucketK_ts w _ _ bar hbar⟩
  exact (mem_aggregate w data bar).mpr ⟨b.ts / w, hk, hbar⟩

theorem pairwise_filterMap_rel {α β : Type} (f : α → Option β)
    (R : α → α → Prop) (S : β → β → Prop) (l : List α)
    (H : ∀ a b x y, R a b → f a = some x → f b = some y → S x y)
    (hl : l.Pairwise R) : (l.filterMap f).Pairwise S := by
  induction l with
  | nil => simp
  | cons a rest ih =>
    rw [List.filterMap_cons]
    rcases List.pairwise_cons.mp hl with ⟨ha, hrest⟩
    cases hfa : f a with
    | none => exact ih hrest
    | some x =>
      refine List.pairwise_cons.mpr ⟨?_, ih hrest⟩
      intro y hy
      obtain ⟨b, hbmem, hfb⟩ := List.mem_filterMap.mp hy
      exact H a b x y (ha b hbmem) hfa hfb

theorem aggregate_pairwise (w : Nat) (hw : 0 < w) (data : List Bar)
    (hs : data.Pairwise (fun a b => a.ts < b.ts)) :
    (aggregate w data).Pairwise (fun a b => a.ts < b.ts) := by
  have hmono : data.Pairwise (fun a b => a.ts / w ≤ b.ts / w) :=
    hs.imp (fun h => Nat.div_le_div_right (Nat.le_of_lt h))
  have hks := keysOf_sorted w data hmono
  refine pairwise_filterMap_rel _ (· < ·) _ _ ?_ hks
  intro k1 k2 x y hlt hx hy
  rw [aggBucketK_ts w k1 _ x hx, aggBucketK_ts w k2 _ y hy]
  exact Nat.mul_lt_mul_of_pos_right hlt hw

/-- Claim C6: for a strictly increasing series and a recognized non-identity
timeframe, the resampled output consists of exactly the non-empty buckets,
in chronological order, with no placeholder rows, and its length is at most
the input length. Soundness: every output bar sits at the start of the
bucket of some input bar; completeness: every input bar's bucket is
represented by an output bar. -/
theorem C6_resample_nonempty_buckets (data : List Bar) (tf : String)
    (htf : tf = "1d" ∨ tf = "4h") (hs : data.Pairwise (fun a b => a.ts < b.ts)) :
    ∃ out, resample_data data tf = Except.ok out ∧
      out.length ≤ data.length ∧
      out.Pairwise (fun a b => a.ts < b.ts) ∧
      (∀ bar ∈ out, ∃ b ∈ data, bar.ts = b.ts / bucketWidth tf * bucketWidth tf) ∧
      (∀ b ∈ data, ∃ bar ∈ out, bar.ts = b.ts / bucketWidth tf * bucketWidth tf) := by
  rcases htf with rfl | rfl
  · exact ⟨aggregate 86400 data, rfl, length_aggregate_le _ _,
      aggregate_pairwise 86400 (by norm_num) data hs,
      fun bar hbar => aggregate_sound 86400 data bar hbar,
      fun b hb => aggregate_complete 86400 data b hb⟩
  · exact ⟨aggregate 14400 data, rfl, length_aggregate_le _ _,
      aggregate_pairwise 14400 (by norm_num) data hs,
      fun bar hbar => aggregate_sound 14400 data bar hbar,
      fun b hb => aggregate_complete 14400 data b hb⟩

/-- Concrete series for C6: three bars spanning day buckets 0 and 2, with a
gap at day bucket 1. -/
def exC6 : List Bar :=
  [⟨0, 10, 12, 9, 11, 100⟩, ⟨1800, 11, 13, 10, 12, 200⟩, ⟨172800, 20, 21, 19, 20, 50⟩]

/-- Claim C6 witness: instantiation on a series with an empty middle day. -/
theorem C6_witness :
    ("1d" = "1d" ∨ "1d" = "4h") ∧ exC6.Pairwise (fun a b => a.ts < b.ts) ∧
    (∃ out, resample_data exC6 "1d" = Except.ok out ∧
      out.length ≤ exC6.length ∧
      out.Pairwise (fun a b => a.ts < b.ts) ∧
      (∀ bar ∈ out, ∃ b ∈ exC6, bar.ts = b.ts / bucketWidth "1d" * bucketWidth "1d") ∧
      (∀ b ∈ exC6, ∃ bar ∈ out, bar.ts = b.ts / bucketWidth "1d" * bucketWidth "1d")) :=
  ⟨Or.inl rfl, by decide, C6_resample_nonempty_buckets exC6 "1d" (Or.inl rfl) (by decide)⟩

theorem le_foldl_max (l : List Int) (a : Int) : a ≤ l.foldl max a := by
  induction l generalizing a with
  | nil => exact le_refl a
  | cons x xs ih =>
    rw [List.foldl_cons]
    exact le_trans (le_max_left a x) (ih (max a x))

theorem mem_le_foldl_max (l : List Int) (a x : Int) : x ∈ l → x ≤ l.foldl max a := by
  induction l generalizing a with
  | nil =>
    intro hx
    simp at hx
  | cons y ys ih =>
    intro hx
    rw [List.foldl_cons]
    rcases List.mem_cons.mp hx with rfl | hx2
    · exact le_trans (le_max_right a x) (le_foldl_max ys (max a x))
    · exact ih (max a y) hx2

theorem foldl_max_mem (l : List Int) (a : Int) : l.foldl max a = a ∨ l.foldl max a ∈ l := by
  induction l generalizing a with
  | nil => exact Or.inl rfl
  | cons y ys ih =>
    rw [List.foldl_cons]
    rcases ih (max a y) with h | h
    · rcases max_choice a y with h2 | h2
      · exact Or.inl (by rw [h, h2])
      · exact Or.inr (by rw [h, h2]; exact List.mem_cons_self y ys)
    · exact Or.inr (List.mem_cons_of_mem y h)

theorem foldl_min_le (l : List Int) (a : Int) : l.foldl min a ≤ a := by
  induction l generalizing a with
  | nil => exact le_refl a
  | cons x xs ih =>
    rw [List.foldl_cons]
    exact le_trans (ih (min a x)) (min_le_left a x)

theorem foldl_min_le_mem (l : List Int) (a x : Int) : x ∈ l → l.foldl min a ≤ x := by
  induction l generalizing a with
  | nil =>
    intro hx
    simp at hx
  | cons y ys ih =>
    intro hx
    rw [List.foldl_cons]
    rcases List.mem_cons.mp hx with rfl | hx2
    · exact le_trans (foldl_min_le ys (min a x)) (min_le_right a x)
    · exact ih (min a y) hx2

theorem foldl_min_mem (l : List Int) (a : Int) : l.foldl min a = a ∨ l.foldl min a ∈ l := by
  induction l generalizing a with
  | nil => exact Or.inl rfl
  | cons y ys ih =>
    rw [List.foldl_cons]
    rcases ih (min a y) with h | h
    · rcases min_choice a y with h2 | h2
      · exact Or.inl (by rw [h, h2])
      · exact Or.inr (by rw [h, h2]; exact List.mem_cons_self y ys)
    · exact Or.inr (List.mem_cons_of_mem y h)

theorem lastClose_spec (b : Bar) (l : List Bar) :
    ∃ last, (b :: l).getLast? = some last ∧ lastClose b l = last.Close := by
  induction l generalizing b with
  | nil => exact ⟨b, rfl, rfl⟩
  | cons c r ih =>
    obtain ⟨last, h1, h2⟩ := ih c
    exact ⟨last, by rw [List.getLast?_cons_cons]; exact h1, h2⟩

theorem ts_le_getLast_ts (l : List Bar) :
    l.Pairwise (fun a b => a.ts < b.ts) → ∀ last, l.getLast? = some last →
      ∀ x ∈ l, x.ts ≤ last.ts := by
  induction l with
  | nil =>
    intro _ last h
    simp at h
  | cons b rest ih =>
    intro hp last hl x hx
    cases rest with
    | nil =>
      simp only [List.getLast?_singleton, Option.some.injEq] at hl
      rcases List.mem_cons.mp hx with rfl | hx2
      · rw [← hl]
      · simp at hx2
    | cons c r =>
      rw [List.getLast?_cons_cons] at hl
      rcases List.mem_cons.mp hx with rfl | hx2
      · exact Nat.le_of_lt ((List.pairwise_cons.mp hp).1 last (mem_of_getLast_some hl))
      · exact ih (List.pairwise_cons.mp hp).2 last hl x hx2

/-- Field-level description of one aggregated bucket row: open of the
earliest bar, close of the latest bar, max of highs, min of lows, sum of
volumes. -/
theorem aggBucketK_spec (w k : Nat) (g : List Bar)
    (hg : g.Pairwise (fun a b => a.ts < b.ts)) (hne : g ≠ []) :
    ∃ bar, aggBucketK w k g = some bar ∧
      (∃ first, g.head? = some first ∧ bar.Open = first.Open ∧
        ∀ x ∈ g, first.ts ≤ x.ts) ∧
      (∃ last, g.getLast? = some last ∧ bar.Close = last.Close ∧
        ∀ x ∈ g, x.ts ≤ last.ts) ∧
      (∀ x ∈ g, x.High ≤ bar.High) ∧ (∃ x ∈ g, bar.High = x.High) ∧
      (∀ x ∈ g, bar.Low ≤ x.Low) ∧ (∃ x ∈ g, bar.Low = x.Low) ∧
      bar.Volume = (g.map Bar.Volume).sum := by
  cases g with
  | nil => exact absurd rfl hne
  | cons b rest =>
    refine ⟨_, rfl, ?_, ?_, ?_, ?_, ?_, ?_, ?_⟩
    · refine ⟨b, rfl, rfl, ?_⟩
      intro x hx
      rcases List.mem_cons.mp hx with rfl | hx2
      · exact le_refl _
      · exact Nat.le_of_lt ((List.pairwise_cons.mp hg).1 x hx2)
    · obtain ⟨last, h1, h2⟩ := lastClose_spec b rest
      exact ⟨last, h1, h2, ts_le_getLast_ts (b :: rest) hg last h1⟩
    · intro x hx
      rcases List.mem_cons.mp hx with rfl | hx2
      · exact le_foldl_max _ _
      · exact mem_le_foldl_max _ _ _ (List.mem_map_of_mem Bar.High hx2)
    · rcases foldl_max_mem (rest.map Bar.High) b.High with h | h
      · exact ⟨b, List.mem_cons_self b rest, h⟩
      · obtain ⟨x, hx2, hxh⟩ := List.mem_map.mp h
        exact ⟨x, List.mem_cons_of_mem b hx2, hxh.symm⟩
    · intro x hx
      rcases List.mem_cons.mp hx with rfl | hx2
      · exact foldl_min_le _ _
      · exact foldl_min_le_mem _ _ _ (List.mem_map_of_mem Bar.Low hx2)
    · rcases foldl_min_mem (rest.map Bar.Low) b.Low with h | h
      · exact ⟨b, List.mem_cons_self b rest, h⟩
      · obtain ⟨x, hx2, hxh⟩ := List.mem_map.mp h
        exact ⟨x, List.mem_cons_of_mem b hx2, hxh.symm⟩
    · simp

/-- Per-bucket field correctness of `aggregate`: every output bar is the
OHLCV aggregation of the input bars of its bucket. -/
theorem aggregate_bar_spec (w : Nat) (hw : 0 < w) (data : List Bar)
    (hs : data.Pairwise (fun a b => a.ts < b.ts)) (bar : Bar)
    (hbar : bar ∈ aggregate w data) :
    ∃ g, g = data.filter (fun b => b.ts / w == bar.ts / w) ∧
      (∃ first, g.head? = some first ∧ bar.Open = first.Open ∧
        ∀ x ∈ g, first.ts ≤ x.ts) ∧
      (∃ last, g.getLast? = some last ∧ bar.Close = last.Close ∧
        ∀ x ∈ g, x.ts ≤ last.ts) ∧
      (∀ x ∈ g, x.High ≤ bar.High) ∧ (∃ x ∈ g, bar.High = x.High) ∧
      (∀ x ∈ g, bar.Low ≤ x.Low) ∧ (∃ x ∈ g, bar.Low = x.Low) ∧
      bar.Volume = (g.map Bar.Volume).sum := by
  obtain ⟨k, hk, hagg⟩ := (mem_aggregate w data bar).mp hbar
  have hgp : (data.filter (fun b => b.ts / w == k)).Pairwise (fun a b => a.ts < b.ts) :=
    hs.filter _
  have hgne : data.filter (fun b => b.ts / w == k) ≠ [] := by
    obtain ⟨b, hb, hbk⟩ := (mem_keysOf w data k).mp hk
    exact List.ne_nil_of_mem (List.mem_filter.mpr ⟨hb, by simp [hbk]⟩)
  obtain ⟨bar2, hbar2, hspec⟩ := aggBucketK_spec w k _ hgp hgne
  have hbeq : bar2 = bar := by
    rw [hagg] at hbar2
    injection hbar2 with h3
    exact h3.symm
  subst hbeq
  have hts : bar2.ts = k * w := aggBucketK_ts w k _ bar2 hagg
  have hkk : bar2.ts / w = k := by
    rw [hts]
    exact Nat.mul_div_cancel k hw
  exact ⟨data.filter (fun b => b.ts / w == bar2.ts / w), rfl, by rw [hkk]; exact hspec⟩

/-- Claim C3: for every bucket of input bars produced by `resample_data`
(on a chronologically ordered series, recognized non-identity timeframe),
the emitted bar has open = open of the earliest-timestamp bar of the
bucket, high = max of highs, low = min of lows, close = close of the
latest-timestamp bar, volume = sum of volumes (source lines 154-160). -/
theorem C3_resample_aggregation (data : List Bar) (tf : String)
    (htf : tf = "1d" ∨ tf = "4h") (hs : data.Pairwise (fun a b => a.ts < b.ts)) :
    ∃ out, resample_data data tf = Except.ok out ∧
      ∀ bar ∈ out,
        ∃ g, g = data.filter
            (fun b => b.ts / bucketWidth tf == bar.ts / bucketWidth tf) ∧
          (∃ first, g.head? = some first ∧ bar.Open = first.Open ∧
            ∀ x ∈ g, first.ts ≤ x.ts) ∧
          (∃ last, g.getLast? = some last ∧ bar.Close = last.Close ∧
            ∀ x ∈ g, x.ts ≤ last.ts) ∧
          (∀ x ∈ g, x.High ≤ bar.High) ∧ (∃ x ∈ g, bar.High = x.High) ∧
          (∀ x ∈ g, bar.Low ≤ x.Low) ∧ (∃ x ∈ g, bar.Low = x.Low) ∧
          bar.Volume = (g.map Bar.Volume).sum := by
  rcases htf with rfl | rfl
  · exact ⟨aggregate 86400 data, rfl,
      fun bar hbar => aggregate_bar_spec 86400 (by norm_num) data hs bar hbar⟩
  · exact ⟨aggregate 14400 data, rfl,
      fun bar hbar => aggregate_bar_spec 14400 (by norm_num) data hs bar hbar⟩

/-- Concrete series for C3: the two example bars of the claim, in one
daily bucket. -/
def exC3 : List Bar := [⟨0, 10, 12, 9, 11, 100⟩, ⟨1800, 11, 13, 10, 12, 200⟩]

/-- Claim C3 witness: instantiation on the claim's example bars, together
with the concrete aggregated result `(O=10, H=13, L=9, C=12, V=300)`. -/
theorem C3_witness :
    ("1d" = "1d" ∨ "1d" = "4h") ∧ exC3.Pairwise (fun a b => a.ts < b.ts) ∧
    (∃ out, resample_data exC3 "1d" = Except.ok out ∧
      ∀ bar ∈ out,
        ∃ g, g = exC3.filter
            (fun b => b.ts / bucketWidth "1d" == bar.ts / bucketWidth "1d") ∧
          (∃ first, g.head? = some first ∧ bar.Open = first.Open ∧
            ∀ x ∈ g, first.ts ≤ x.ts) ∧
          (∃ last, g.getLast? = some last ∧ bar.Close = last.Close ∧
            ∀ x ∈ g, x.ts ≤ last.ts) ∧
          (∀ x ∈ g, x.High ≤ bar.High) ∧ (∃ x ∈ g, bar.High = x.High) ∧
          (∀ x ∈ g, bar.Low ≤ x.Low) ∧ (∃ x ∈ g, bar.Low = x.Low) ∧
          bar.Volume = (g.map Bar.Volume).sum) ∧
    resample_data exC3 "1d" = Except.ok [⟨0, 10, 13, 9, 12, 300⟩] :=
  ⟨Or.inl rfl, by decide, C3_resample_aggregation exC3 "1d" (Or.inl rfl) (by decide), rfl⟩

/-- Concrete series with closes `[5, 3, 5, 2, 5]` (the example of C1). -/
def ex1 : List Bar :=
  [⟨0, 5, 5, 5, 5, 0⟩, ⟨1, 3, 3, 3, 3, 0⟩, ⟨2, 5, 5, 5, 5, 0⟩, ⟨3, 2, 2, 2, 2, 0⟩,
   ⟨4, 5, 5, 5, 5, 0⟩]

/-- Concrete series with closes `[5, 1, 2, 3, 4]`. -/
def ex2 : List Bar :=
  [⟨0, 5, 5, 5, 5, 0⟩, ⟨1, 1, 1, 1, 1, 0⟩, ⟨2, 2, 2, 2, 2, 0⟩, ⟨3, 3, 3, 3, 3, 0⟩,
   ⟨4, 4, 4, 4, 4, 0⟩]

/-- Claim C1 counterexample. On closes `[5,3,5,2,5]` with radius 1 the code
reports the resistance `[5]` (at index 2), while the claim asserts that no
interior index is a resistance. Moreover on closes `[5,1,2,3,4]` with
radius 2 the code reports the support `[1]` at index 1, although
`radius ≤ i` fails there, and the claim's own rule (`claim_extremum`)
accepts no support index at all on that input. -/
theorem C1_counterexample :
    (find_support_resistance ex1 1).2 = [5] ∧
    (find_support_resistance ex2 2).1 = [1] ∧
    ((List.range (ex2.map Bar.Close).length).filter
        (fun i => claim_extremum np_less (ex2.map Bar.Close) 2 i)) = [] := by
  decide

/-- Claim C1 witness: the amended statement instantiated on the closes
`[5,3,5,2,5]` with radius 1. -/
theorem C1_witness :
    0 < 1 ∧ 2 * 1 + 1 ≤ ex1.length ∧
    find_support_resistance ex1 1 =
      (((List.range (ex1.map Bar.Close).length).filter
          (fun i => amended_extremum np_less (ex1.map Bar.Close) 1 i)).map
            (fun i => (ex1.map Bar.Close).getD i 0),
       ((List.range (ex1.map Bar.Close).length).filter
          (fun i => amended_extremum np_greater (ex1.map Bar.Close) 1 i)).map
            (fun i => (ex1.map Bar.Close).getD i 0)) :=
  ⟨by decide, by decide, C1_find_support_resistance_amended ex1 1 (by decide) (by decide)⟩

/-- A naive local datetime: calendar day number and second of day, as fed
to `pytz.localize` (source lines 82-83). -/
structure LocalDT where
  day : Int
  sec : Int
deriving DecidableEq

/-- `pytz.localize`: the UTC instant of a naive local datetime, using the
timezone's UTC offset resolved at that local datetime (not at any other
reference instant). `offset` is the timezone's offset map. -/
def toUTC (offset : LocalDT → Int) (t : LocalDT) : Int :=
  t.day * 86400 + t.sec - offset t

/-- Source lines 74-85: `get_extended_period(now)`. Takes the calendar date
of the reference instant and returns previous day 18:00 and current day
09:00, each localized with the offset of its own date. -/
def get_extended_period (offset : LocalDT → Int) (nowDay : Int) : Int × Int :=
  (toUTC offset { day := nowDay - 1, sec := 18 * 3600 },
   toUTC offset { day := nowDay, sec := 9 * 3600 })

/-- Claim C4: for every reference date `D` and every offset map taking only
the US/Eastern values (−5h standard, −4h daylight), the extended window
starts at `D−1` 18:00 local, ends at `D` 09:00 local, each localized with
the offset of that local datetime, and start < end. -/
theorem C4_get_extended_period (offset : LocalDT → Int) (d : Int)
    (hoff : ∀ t, offset t = -18000 ∨ offset t = -14400) :
    (get_extended_period offset d).1 = toUTC offset { day := d - 1, sec := 18 * 3600 } ∧
    (get_extended_period offset d).2 = toUTC offset { day := d, sec := 9 * 3600 } ∧
    (get_extended_period offset d).1 < (get_extended_period offset d).2 := by
  refine ⟨rfl, rfl, ?_⟩
  simp only [get_extended_period, toUTC]
  rcases hoff { day := d - 1, sec := 18 * 3600 } with h1 | h1 <;>
    rcases hoff { day := d, sec := 9 * 3600 } with h2 | h2 <;>
      rw [h1, h2] <;> ring_nf <;> omega

/-- Offset map of a timezone with a spring-forward transition at day 20161:
standard offset −5h before, daylight offset −4h from that day on. -/
def offsetDST : LocalDT → Int := fun t => if 20161 ≤ t.day then -14400 else -18000

/-- Claim C4 witness: instantiation on a date that crosses the DST
transition of `offsetDST` (start on the standard-time day, end on the
daylight-time day). -/
theorem C4_witness :
    (∀ t, offsetDST t = -18000 ∨ offsetDST t = -14400) ∧
    (get_extended_period offsetDST 20161).1 < (get_extended_period offsetDST 20161).2 := by
  have h : ∀ t : LocalDT, offsetDST t = -18000 ∨ offsetDST t = -14400 := by
    intro t
    unfold offsetDST
    split
    · exact Or.inr rfl
    · exact Or.inl rfl
  exact ⟨h, (C4_get_extended_period offsetDST 20161 h).2.2⟩

/-- Source line 113: the extended-window mask
`data[(data.index >= extended_start) & (data.index <= extended_end)]`,
inclusive at both bounds and order-preserving. -/
def filter_window (data : List Bar) (s e : Nat) : List Bar :=
  data.filter (fun b => decide (s ≤ b.ts) && decide (b.ts ≤ e))

/-- Source line 21: the configured timeframes. -/
def TIMEFRAMES : List String := ["1d", "4h", "30m"]

/-- Source line 232: the per-timeframe extrema radius used by
`generate_chart_for_symbol`. -/
def order_for (tf : String) : Nat := if tf = "1d" then 1 else if tf = "4h" then 2 else 3

/-- Source lines 230-234: the assembly loop over timeframes: resample, then
detect extrema; an exception raised by `resample_data` aborts the loop and
propagates, so no partial mapping is returned. -/
def assemble_levels (data : List Bar) :
    List String → Except String (List (String × (List Int × List Int)))
  | [] => Except.ok []
  | tf :: rest =>
    match resample_data data tf with
    | Except.error e => Except.error e
    | Except.ok resampled =>
      match assemble_levels data rest with
      | Except.error e => Except.error e
      | Except.ok others =>
        Except.ok ((tf, find_support_resistance resampled (order_for tf)) :: others)

/-- Outcome of one symbol: skipped for lack of data, or a chart made of the
per-timeframe levels plus the window high and low. -/
inductive ChartOutcome where
  | noData : ChartOutcome
  | chart : List (String × (List Int × List Int)) → Int → Int → ChartOutcome
deriving DecidableEq

/-- Source line 222: `extended_data['High'].max()`. -/
def seriesHigh : List Bar → Int
  | [] => 0
  | b :: rest => (rest.map Bar.High).foldl max b.High

/-- Source line 223: `extended_data['Low'].min()`. -/
def seriesLow : List Bar → Int
  | [] => 0
  | b :: rest => (rest.map Bar.Low).foldl min b.Low

/-- Source lines 212-243: `generate_chart_for_symbol` on already-fetched
data: filter to the window, return early (no data) when the filtered frame
is empty, otherwise compute window high/low and the per-timeframe levels;
an exception from the assembly loop propagates. -/
def generate_chart_for_symbol (data : List Bar) (s e : Nat) (tfs : List String) :
    Except String ChartOutcome :=
  let extended := filter_window data s e
  if extended = [] then Except.ok ChartOutcome.noData
  else
    match assemble_levels extended tfs with
    | Except.error msg => Except.error msg
    | Except.ok levels =>
      Except.ok (ChartOutcome.chart levels (seriesHigh extended) (seriesLow extended))

/-- Source lines 245-260: the batch loop; each symbol is processed inside
its own try/except, so every symbol gets its own outcome. -/
def generate_charts (fetch : String → List Bar) (symbols : List String) (s e : Nat)
    (tfs : List String) : List (String × Except String ChartOutcome) :=
  symbols.map (fun sym => (sym, generate_chart_for_symbol (fetch sym) s e tfs))

theorem assemble_levels_error_of_mem (data : List Bar) (tf : String) (tfs : List String)
    (h1 : tf ≠ "1d") (h2 : tf ≠ "4h") (h3 : tf ≠ "30m") :
    tf ∈ tfs → ∀ result, assemble_levels data tfs ≠ Except.ok result := by
  have hres : resample_data data tf = Except.error ("Unsupported timeframe: " ++ tf) := by
    unfold resample_data
    rw [if_neg h1, if_neg h2, if_neg h3]
  induction tfs with
  | nil =>
    intro hmem
    simp at hmem
  | cons t rest ih =>
    intro hmem result hok
    rcases List.mem_cons.mp hmem with rfl | hmem2
    · simp only [assemble_levels] at hok
      rw [hres] at hok
      simp at hok
    · simp only [assemble_levels] at hok
      cases hrt : resample_data data t with
      | error msg =>
        rw [hrt] at hok
        simp at hok
      | ok rs =>
        rw [hrt] at hok
        cases har : assemble_levels data rest with
        | error msg =>
          rw [har] at hok
          simp at hok
        | ok others => exact ih hmem2 others har

/-- Claim C5: an unrecognized timeframe makes `resample_data` fail with the
"Unsupported timeframe" error (source lines 151-152), and one such
timeframe anywhere in the requested list makes the whole assembly fail
with no partial result; in particular `["1d", "bogus"]` fails. -/
theorem C5_unsupported_timeframe (data : List Bar) (tf : String) (tfs : List String)
    (h1 : tf ≠ "1d") (h2 : tf ≠ "4h") (h3 : tf ≠ "30m") (hmem : tf ∈ tfs) :
    resample_data data tf = Except.error ("Unsupported timeframe: " ++ tf) ∧
    (∀ result, assemble_levels data tfs ≠ Except.ok result) ∧
    assemble_levels data ["1d", "bogus"] =
      Except.error ("Unsupported timeframe: " ++ "bogus") := by
  refine ⟨?_, assemble_levels_error_of_mem data tf tfs h1 h2 h3 hmem, rfl⟩
  unfold resample_data
  rw [if_neg h1, if_neg h2, if_neg h3]

/-- Claim C5 witness: the timeframe list `["1d", "bogus"]` on an empty
series. -/
theorem C5_witness :
    ("bogus" ≠ "1d") ∧ ("bogus" ≠ "4h") ∧ ("bogus" ≠ "30m") ∧
    "bogus" ∈ ["1d", "bogus"] ∧
    (resample_data ([] : List Bar) "bogus" =
        Except.error ("Unsupported timeframe: " ++ "bogus") ∧
      (∀ result, assemble_levels ([] : List Bar) ["1d", "bogus"] ≠ Except.ok result) ∧
      assemble_levels ([] : List Bar) ["1d", "bogus"] =
        Except.error ("Unsupported timeframe: " ++ "bogus")) :=
  ⟨by decide, by decide, by decide, by decide,
    C5_unsupported_timeframe [] "bogus" ["1d", "bogus"]
      (by decide) (by decide) (by decide) (by decide)⟩

/-- Claim C7: the window filter keeps exactly the bars with
`start ≤ timestamp ≤ end` (inclusive at both bounds), preserves the
original order (it is a sublist of the input), includes a bar exactly at
either bound, excludes a bar one second outside either bound, and an empty
filtered result makes `generate_chart_for_symbol` return the no-data
outcome rather than an error. -/
theorem C7_window_filter (data : List Bar) (s e : Nat) :
    (∀ b, b ∈ filter_window data s e ↔ (b ∈ data ∧ s ≤ b.ts ∧ b.ts ≤ e)) ∧
    (filter_window data s e).Sublist data ∧
    (∀ b ∈ data, s ≤ e → b.ts = s ∨ b.ts = e → b ∈ filter_window data s e) ∧
    (∀ b ∈ data, b.ts + 1 = s ∨ b.ts = e + 1 → b ∉ filter_window data s e) ∧
    (∀ tfs, filter_window data s e = [] →
      generate_chart_for_symbol data s e tfs = Except.ok ChartOutcome.noData) := by
  refine ⟨?_, List.filter_sublist data, ?_, ?_, ?_⟩
  · intro b
    simp [filter_window, List.mem_filter]
  · intro b hb hse hbnd
    apply List.mem_filter.mpr
    refine ⟨hb, ?_⟩
    simp only [Bool.and_eq_true, decide_eq_true_eq]
    omega
  · intro b hb hbnd hmem
    have hx := List.mem_filter.mp hmem
    simp only [Bool.and_eq_true, decide_eq_true_eq] at hx
    omega
  · intro tfs hempty
    simp only [generate_chart_for_symbol]
    rw [if_pos hempty]

/-- Concrete series for C7 with timestamps 9, 10, 20, 21 around the window
`[10, 20]`. -/
def exC7 : List Bar :=
  [⟨9, 1, 1, 1, 1, 0⟩, ⟨10, 2, 2, 2, 2, 0⟩, ⟨20, 3, 3, 3, 3, 0⟩, ⟨21, 4, 4, 4, 4, 0⟩]

/-- Claim C7 witness: boundary bars at 10 and 20 are kept, bars at 9 and 21
are dropped. -/
theorem C7_witness :
    filter_window exC7 10 20 = [⟨10, 2, 2, 2, 2, 0⟩, ⟨20, 3, 3, 3, 3, 0⟩] ∧
    (∀ b, b ∈ filter_window exC7 10 20 ↔ (b ∈ exC7 ∧ 10 ≤ b.ts ∧ b.ts ≤ 20)) :=
  ⟨by decide, (C7_window_filter exC7 10 20).1⟩

/-- Claim C9: the batch loop pairs every symbol with its own outcome (one
symbol's failure cannot remove a sibling's entry), and a batch of an
empty-data symbol followed by a well-formed symbol yields the no-data
outcome for the first and a complete chart for the second. -/
theorem C9_symbol_isolation (fetch : String → List Bar) (a b : String) (s e : Nat)
    (ha : filter_window (fetch a) s e = []) (hb : filter_window (fetch b) s e ≠ []) :
    (∀ symbols tfs, (generate_charts fetch symbols s e tfs).length = symbols.length) ∧
    ∃ levels, generate_charts fetch [a, b] s e TIMEFRAMES =
      [(a, Except.ok ChartOutcome.noData),
       (b, Except.ok (ChartOutcome.chart levels
            (seriesHigh (filter_window (fetch b) s e))
            (seriesLow (filter_window (fetch b) s e))))] := by
  constructor
  · intro symbols tfs
    simp [generate_charts]
  · have hassemble : ∃ lv, assemble_levels (filter_window (fetch b) s e) TIMEFRAMES =
        Except.ok lv := ⟨_, rfl⟩
    obtain ⟨lv, hlv⟩ := hassemble
    refine ⟨lv, ?_⟩
    have h1 : generate_chart_for_symbol (fetch a) s e TIMEFRAMES =
        Except.ok ChartOutcome.noData := by
      simp only [generate_chart_for_symbol]
      rw [if_pos ha]
    have h2 : generate_chart_for_symbol (fetch b) s e TIMEFRAMES =
        Except.ok (ChartOutcome.chart lv
          (seriesHigh (filter_window (fetch b) s e))
          (seriesLow (filter_window (fetch b) s e))) := by
      simp only [generate_chart_for_symbol]
      rw [if_neg hb, hlv]
    simp only [generate_charts, List.map_cons, List.map_nil]
    rw [h1, h2]

/-- Fetch map for the C9 witness: symbol "B" has one in-window bar, every
other symbol has no data. -/
def fetchW : String → List Bar := fun sym => if sym = "B" then [⟨10, 2, 3, 1, 2, 5⟩] else []

/-- Claim C9 witness: a two-symbol batch with one empty symbol and one
well-formed symbol. -/
theorem C9_witness :
    filter_window (fetchW "A") 0 100 = [] ∧
    filter_window (fetchW "B") 0 100 ≠ [] ∧
    ((∀ symbols tfs, (generate_charts fetchW symbols 0 100 tfs).length = symbols.length) ∧
     ∃ levels, generate_charts fetchW ["A", "B"] 0 100 TIMEFRAMES =
       [("A", Except.ok ChartOutcome.noData),
        ("B", Except.ok (ChartOutcome.chart levels
             (seriesHigh (filter_window (fetchW "B") 0 100))
             (seriesLow (filter_window (fetchW "B") 0 100))))]) :=
  ⟨by decide, by decide,
    C9_symbol_isolation fetchW "A" "B" 0 100 (by decide) (by decide)⟩

end SCB
